import Mathlib

/-!
Verification of the Visual Lens matching core of the Storage-Management-System
repository (backend/app/routers/identify.py and
backend/app/services/feature_extractor.py).

Machine floating-point values are embedded as exact numbers: the order- and
structure-level behaviour of the matcher (threshold filter, stable descending
sort, per-item deduplication, limit truncation, item resolution) is modelled
over `ℚ`, where every comparison the code performs is decidable and the whole
pipeline is executable; the analytic parts (square-root confidence curve,
L2 normalisation) are modelled over `ℝ`.
-/

namespace VisualLens

/-- A row of the `item_embeddings` table as read by `identify_item`:
owning item id, reference image url, stored vector. -/
structure EmbRecord where
  item_id : Nat
  image_url : String
  embedding : List ℚ
deriving DecidableEq, Repr

/-- One entry of the `results` list built by `identify_item` for a similarity
that passed the threshold. -/
structure MatchResult where
  item_id : Nat
  similarity : ℚ
  confidence : ℚ
  reference_image : String
deriving DecidableEq, Repr

/-- One entry of the `final_matches` list: the match data together with the
resolved catalog item (abstracted to its id; `item_to_response` only reads
fields of the already-fetched row). -/
structure FinalMatch where
  confidence : ℚ
  similarity : ℚ
  reference_image : String
  item_id : Nat
deriving DecidableEq, Repr

/-- `np.dot` on two vectors, exact arithmetic. -/
def dotp (a b : List ℚ) : ℚ := (List.zipWith (· * ·) a b).sum

/-- `MATCH_THRESHOLD` from identify.py (0.25, exactly representable). -/
def MATCH_THRESHOLD : ℚ := 0.25

/-- `compute_similarity` from feature_extractor.py: dot product clipped by
`np.clip(similarity, -1.0, 1.0)` (lower bound applied first, then upper). -/
def compute_similarity (vec_a vec_b : List ℚ) : ℚ :=
  min (max (dotp vec_a vec_b) (-1)) 1

/-- The loop of identify.py lines 108–123: for each stored embedding compute
the dot product with the query, keep it only when `threshold ≤ sim`, and
record item id, similarity, confidence and reference image in corpus order.
The confidence computation (a float `sqrt` expression, analysed separately
over `ℝ` below) is abstracted as the function argument `conf`. -/
def mkResults (conf : ℚ → ℚ) (threshold : ℚ) (corpus : List EmbRecord)
    (q : List ℚ) : List MatchResult :=
  corpus.filterMap (fun e =>
    let s := dotp e.embedding q
    if threshold ≤ s then
      some ⟨e.item_id, s, conf s, e.image_url⟩
    else
      none)

/-- The order used by `results.sort(key=lambda x: x["similarity"], reverse=True)`:
`a` may come before `b` iff `b`'s similarity is at most `a`'s. -/
def simOrder (a b : MatchResult) : Prop := b.similarity ≤ a.similarity

instance : DecidableRel simOrder := fun a b =>
  inferInstanceAs (Decidable (b.similarity ≤ a.similarity))

instance : IsTotal MatchResult simOrder :=
  ⟨fun a b => le_total b.similarity a.similarity⟩

instance : IsTrans MatchResult simOrder :=
  ⟨fun _ _ _ h h' => le_trans h' h⟩

/-- Python's `list.sort` is stable; a stable sort is extensionally an
insertion sort with the same stability convention, which we use as the
model. -/
def sortResults (l : List MatchResult) : List MatchResult :=
  l.insertionSort simOrder

/-- The deduplication loop of identify.py lines 129–136: scan the sorted
results, skip items already seen, append the first record of each new item,
and stop as soon as `limit` records have been collected. -/
def dedupLoop (limit : Nat) (seen : List Nat) (count : Nat) :
    List MatchResult → List MatchResult
  | [] => []
  | r :: l =>
    if r.item_id ∈ seen then
      dedupLoop limit seen count l
    else if limit ≤ count + 1 then
      [r]
    else
      r :: dedupLoop limit (r.item_id :: seen) (count + 1) l

/-- Deduplicated, limit-truncated ranked results (`deduped_results`). -/
def dedupResults (limit : Nat) (l : List MatchResult) : List MatchResult :=
  dedupLoop limit [] 0 l

/-- The final loop of identify.py lines 139–149: look each match's item up in
the catalog (`items` is the list of existing item ids); matches whose item no
longer exists are skipped, the rest are re-shaped into response entries. -/
def resolveItems (items : List Nat) : List MatchResult → List FinalMatch
  | [] => []
  | m :: l =>
    if m.item_id ∈ items then
      ⟨m.confidence, m.similarity, m.reference_image, m.item_id⟩ ::
        resolveItems items l
    else
      resolveItems items l

/-- The whole match pipeline of `identify_item` after query-vector
extraction: score and filter, sort by similarity descending, deduplicate per
item up to `limit`, resolve the surviving items. -/
def identifyMatches (conf : ℚ → ℚ) (threshold : ℚ) (limit : Nat)
    (items : List Nat) (corpus : List EmbRecord) (q : List ℚ) :
    List FinalMatch :=
  resolveItems items (dedupResults limit (sortResults (mkResults conf threshold corpus q)))

example :
    identifyMatches (fun _ => 0) MATCH_THRESHOLD 5 [1, 2]
      [⟨1, "a", [1/2]⟩, ⟨2, "b", [9/10]⟩, ⟨1, "c", [1]⟩] [1] =
      [⟨0, 1, "c", 1⟩, ⟨0, 9/10, "b", 2⟩] := by
  norm_num [identifyMatches, mkResults, dotp, MATCH_THRESHOLD, sortResults,
    List.insertionSort, List.orderedInsert, simOrder, dedupResults, dedupLoop,
    resolveItems, List.filterMap_cons]

/-! ### Properties of the deduplication loop -/

theorem dedupLoop_mem :
    ∀ (l : List MatchResult) (limit : Nat) (seen : List Nat) (count : Nat)
      (r : MatchResult), r ∈ dedupLoop limit seen count l → r ∈ l := by
  intro l
  induction l with
  | nil => intro _ _ _ r h; simp [dedupLoop] at h
  | cons r0 t ih =>
    intro limit seen count r h
    simp only [dedupLoop] at h
    by_cases h0 : r0.item_id ∈ seen
    · rw [if_pos h0] at h
      exact List.mem_cons_of_mem _ (ih _ _ _ _ h)
    · rw [if_neg h0] at h
      by_cases h1 : limit ≤ count + 1
      · rw [if_pos h1] at h
        rcases List.mem_singleton.mp h with rfl
        exact List.mem_cons_self _ _
      · rw [if_neg h1] at h
        rcases List.mem_cons.mp h with rfl | h
        · exact List.mem_cons_self _ _
        · exact List.mem_cons_of_mem _ (ih _ _ _ _ h)

theorem dedupLoop_not_seen :
    ∀ (l : List MatchResult) (limit : Nat) (seen : List Nat) (count : Nat)
      (r : MatchResult), r ∈ dedupLoop limit seen count l → r.item_id ∉ seen := by
  intro l
  induction l with
  | nil => intro _ _ _ r h; simp [dedupLoop] at h
  | cons r0 t ih =>
    intro limit seen count r h
    simp only [dedupLoop] at h
    by_cases h0 : r0.item_id ∈ seen
    · rw [if_pos h0] at h
      exact ih _ _ _ _ h
    · rw [if_neg h0] at h
      by_cases h1 : limit ≤ count + 1
      · rw [if_pos h1] at h
        rcases List.mem_singleton.mp h with rfl
        exact h0
      · rw [if_neg h1] at h
        rcases List.mem_cons.mp h with rfl | h
        · exact h0
        · intro hs
          exact ih _ _ _ _ h (List.mem_cons_of_mem _ hs)

theorem dedupLoop_pairwise_ne :
    ∀ (l : List MatchResult) (limit : Nat) (seen : List Nat) (count : Nat),
      (dedupLoop limit seen count l).Pairwise
        (fun a b => a.item_id ≠ b.item_id) := by
  intro l
  induction l with
  | nil => intro _ _ _; simp [dedupLoop]
  | cons r0 t ih =>
    intro limit seen count
    simp only [dedupLoop]
    by_cases h0 : r0.item_id ∈ seen
    · rw [if_pos h0]; exact ih _ _ _
    · rw [if_neg h0]
      by_cases h1 : limit ≤ count + 1
      · rw [if_pos h1]; exact List.pairwise_singleton _ _
      · rw [if_neg h1]
        refine List.Pairwise.cons ?_ (ih _ _ _)
        intro b hb heq
        exact dedupLoop_not_seen _ _ _ _ _ hb (heq ▸ List.mem_cons_self _ _)

theorem dedupLoop_max_similarity :
    ∀ (l : List MatchResult) (limit : Nat) (seen : List Nat) (count : Nat)
      (r : MatchResult), l.Pairwise simOrder →
      r ∈ dedupLoop limit seen count l →
      ∀ r' ∈ l, r'.item_id = r.item_id → r'.similarity ≤ r.similarity := by
  intro l
  induction l with
  | nil => intro _ _ _ r _ h; simp [dedupLoop] at h
  | cons r0 t ih =>
    intro limit seen count r hsort h r' hr' hid
    have hhead : ∀ b ∈ t, simOrder r0 b := fun b hb =>
      List.rel_of_pairwise_cons hsort hb
    have htail : t.Pairwise simOrder := List.Pairwise.of_cons hsort
    simp only [dedupLoop] at h
    by_cases h0 : r0.item_id ∈ seen
    · rw [if_pos h0] at h
      rcases List.mem_cons.mp hr' with rfl | hr'
      · -- r' is the head that was skipped as already seen; then r would have
        -- the same, seen, item id, contradicting `dedupLoop_not_seen`.
        exact absurd (hid ▸ h0) (dedupLoop_not_seen _ _ _ _ _ h)
      · exact ih _ _ _ _ htail h r' hr' hid
    · rw [if_neg h0] at h
      by_cases h1 : limit ≤ count + 1
      · rw [if_pos h1] at h
        rcases List.mem_singleton.mp h with rfl
        rcases List.mem_cons.mp hr' with rfl | hr'
        · exact le_refl _
        · exact hhead r' hr'
      · rw [if_neg h1] at h
        rcases List.mem_cons.mp h with rfl | h
        · rcases List.mem_cons.mp hr' with rfl | hr'
          · exact le_refl _
          · exact hhead r' hr'
        · rcases List.mem_cons.mp hr' with rfl | hr'
          · have : r.item_id ∉ r'.item_id :: seen :=
              dedupLoop_not_seen _ _ _ _ _ h
            exact absurd (hid ▸ List.mem_cons_self _ _) this
          · exact ih _ _ _ _ htail h r' hr' hid

/-- C2: the ranked, deduplicated output contains at most one result per item,
and the result kept for an item has the greatest similarity among all of that
item's records that passed the threshold. -/
theorem claim_C2_one_best_result_per_item (conf : ℚ → ℚ) (threshold : ℚ)
    (limit : Nat) (corpus : List EmbRecord) (q : List ℚ) :
    (dedupResults limit (sortResults (mkResults conf threshold corpus q))).Pairwise
        (fun a b => a.item_id ≠ b.item_id) ∧
      ∀ r ∈ dedupResults limit (sortResults (mkResults conf threshold corpus q)),
        ∀ r' ∈ mkResults conf threshold corpus q,
          r'.item_id = r.item_id → r'.similarity ≤ r.similarity := by
  constructor
  · exact dedupLoop_pairwise_ne _ _ _ _
  · intro r hr r' hr' hid
    have hsorted : (sortResults (mkResults conf threshold corpus q)).Pairwise simOrder :=
      List.sorted_insertionSort simOrder (mkResults conf threshold corpus q)
    have hmem : r' ∈ sortResults (mkResults conf threshold corpus q) :=
      (List.perm_insertionSort simOrder (mkResults conf threshold corpus q)).mem_iff.mpr hr'
    exact dedupLoop_max_similarity _ _ _ _ _ hsorted hr r' hmem hid

theorem claim_C2_witness :
    (⟨1, 1, 0, "b"⟩ : MatchResult) ∈
        dedupResults 5 (sortResults (mkResults (fun _ => 0) MATCH_THRESHOLD
          [⟨1, "a", [1/2]⟩, ⟨1, "b", [1]⟩] [1])) ∧
      (⟨1, 1/2, 0, "a"⟩ : MatchResult) ∈
        mkResults (fun _ => 0) MATCH_THRESHOLD [⟨1, "a", [1/2]⟩, ⟨1, "b", [1]⟩] [1] ∧
      (1 : ℚ) / 2 ≤ 1 := by
  have h1 : (⟨1, 1, 0, "b"⟩ : MatchResult) ∈
      dedupResults 5 (sortResults (mkResults (fun _ => 0) MATCH_THRESHOLD
        [⟨1, "a", [1/2]⟩, ⟨1, "b", [1]⟩] [1])) := by
    norm_num [mkResults, dotp, MATCH_THRESHOLD, sortResults, List.insertionSort,
      List.orderedInsert, simOrder, dedupResults, dedupLoop, List.filterMap_cons]
  have h2 : (⟨1, 1/2, 0, "a"⟩ : MatchResult) ∈
      mkResults (fun _ => 0) MATCH_THRESHOLD [⟨1, "a", [1/2]⟩, ⟨1, "b", [1]⟩] [1] := by
    norm_num [mkResults, dotp, MATCH_THRESHOLD, List.filterMap_cons]
  exact ⟨h1, h2,
    (claim_C2_one_best_result_per_item (fun _ => 0) MATCH_THRESHOLD 5
      [⟨1, "a", [1/2]⟩, ⟨1, "b", [1]⟩] [1]).2 _ h1 _ h2 rfl⟩

/-! ### Clamping (claim C3) -/

/-- C3 as stated is false on the code: `identify_item` reports the raw dot
product, not a clamped value. With a stored vector `[2]` and query `[2]` the
reported similarity is `4`, outside `[-1, 1]`. -/
theorem claim_C3_counterexample :
    ∃ m ∈ identifyMatches (fun _ => 0) MATCH_THRESHOLD 5 [1]
      [⟨1, "a", [2]⟩] [2], 1 < m.similarity := by
  refine ⟨⟨0, 4, "a", 1⟩, ?_, by norm_num⟩
  norm_num [identifyMatches, mkResults, dotp, MATCH_THRESHOLD, sortResults,
    List.insertionSort, List.orderedInsert, simOrder, dedupResults, dedupLoop,
    resolveItems, List.filterMap_cons]

/-- C3 (amended): the clamping to `[-1, 1]` holds for `compute_similarity`
(feature_extractor.py), the only place the code clamps; the identify/match
path reports the unclamped dot product. -/
theorem claim_C3_amended_compute_similarity_clamped (vec_a vec_b : List ℚ) :
    -1 ≤ compute_similarity vec_a vec_b ∧ compute_similarity vec_a vec_b ≤ 1 := by
  unfold compute_similarity
  exact ⟨le_min (le_max_right _ _) (by norm_num), min_le_right _ _⟩

/-! ### Missing catalog items are dropped silently (claim C10) -/

/-- C10: the final loop keeps exactly the deduplicated matches whose item
still exists, in order, without error; on a concrete corpus where one of two
deduplicated matches points to a deleted item, the response has 1 match while
the limit is 5 and the deduplicated list has 2 entries. -/
theorem claim_C10_missing_items_silently_dropped :
    (∀ (items : List Nat) (l : List MatchResult),
        resolveItems items l =
          (l.filter (fun m => decide (m.item_id ∈ items))).map
            (fun m => ⟨m.confidence, m.similarity, m.reference_image, m.item_id⟩)) ∧
      (identifyMatches (fun _ => 0) MATCH_THRESHOLD 5 [2]
          [⟨1, "a", [1]⟩, ⟨2, "b", [9/10]⟩] [1]).length = 1 ∧
      (dedupResults 5 (sortResults (mkResults (fun _ => 0) MATCH_THRESHOLD
          [⟨1, "a", [1]⟩, ⟨2, "b", [9/10]⟩] [1]))).length = 2 ∧
      (1 : Nat) < 5 := by
  refine ⟨?_, ?_, ?_, by norm_num⟩
  · intro items l
    induction l with
    | nil => simp [resolveItems]
    | cons m t ih =>
      by_cases hm : m.item_id ∈ items
      · simp [resolveItems, hm, ih]
      · simp [resolveItems, hm, ih]
  · norm_num [identifyMatches, mkResults, dotp, MATCH_THRESHOLD, sortResults,
      List.insertionSort, List.orderedInsert, simOrder, dedupResults, dedupLoop,
      resolveItems, List.filterMap_cons]
  · norm_num [mkResults, dotp, MATCH_THRESHOLD, sortResults, List.insertionSort,
      List.orderedInsert, simOrder, dedupResults, dedupLoop, List.filterMap_cons]

/-! ### Threshold monotonicity (claim C5) -/

/-- `l₁` is a leading segment of `l₂`. -/
def headPart {α : Type} (l₁ l₂ : List α) : Prop := ∃ t, l₂ = l₁ ++ t

theorem headPart_length_le {α : Type} {l₁ l₂ : List α} (h : headPart l₁ l₂) :
    l₁.length ≤ l₂.length := by
  rcases h with ⟨t, rfl⟩
  simp

/-- Raising the threshold refines the `results` list to those entries whose
similarity clears the higher bar. -/
theorem mkResults_filter_of_le (conf : ℚ → ℚ) {t1 t2 : ℚ} (h : t1 ≤ t2)
    (corpus : List EmbRecord) (q : List ℚ) :
    mkResults conf t2 corpus q =
      (mkResults conf t1 corpus q).filter (fun r => decide (t2 ≤ r.similarity)) := by
  induction corpus with
  | nil => simp [mkResults]
  | cons e c ih =>
    simp only [mkResults, List.filterMap_cons] at ih ⊢
    by_cases h2 : t2 ≤ dotp e.embedding q
    · have h1 : t1 ≤ dotp e.embedding q := le_trans h h2
      rw [if_pos h2, if_pos h1]
      simp only [List.filter_cons, decide_eq_true_eq]
      rw [if_pos h2]
      exact congrArg _ ih
    · rw [if_neg h2]
      by_cases h1 : t1 ≤ dotp e.embedding q
      · rw [if_pos h1]
        simp only [List.filter_cons, decide_eq_true_eq]
        rw [if_neg h2]
        exact ih
      · rw [if_neg h1]
        exact ih

theorem orderedInsert_eq_cons {a : MatchResult} {l : List MatchResult}
    (h : ∀ x ∈ l, simOrder a x) :
    List.orderedInsert simOrder a l = a :: l := by
  cases l with
  | nil => rfl
  | cons c t =>
    exact List.orderedInsert_of_le (r := simOrder) t (h c (List.mem_cons_self _ _))

/-- Filtering commutes with a stable insertion into a sorted list. -/
theorem filter_orderedInsert (p : MatchResult → Bool) (a : MatchResult) :
    ∀ l : List MatchResult, l.Pairwise simOrder →
      (List.orderedInsert simOrder a l).filter p =
        if p a then List.orderedInsert simOrder a (l.filter p) else l.filter p := by
  intro l
  induction l with
  | nil =>
    intro _
    have e1 : List.orderedInsert simOrder a ([] : List MatchResult) = [a] := rfl
    have e2 : ([] : List MatchResult).filter p = [] := rfl
    rw [e2, e1, List.filter_cons]
    by_cases hp : p a <;> simp [hp]
  | cons b t ih =>
    intro hsort
    have hb : ∀ x ∈ t, simOrder b x := fun x hx =>
      List.rel_of_pairwise_cons hsort hx
    have ht : t.Pairwise simOrder := List.Pairwise.of_cons hsort
    simp only [List.orderedInsert]
    by_cases hab : simOrder a b
    · rw [if_pos hab]
      by_cases hp : p a
      · have hall : ∀ x ∈ (b :: t).filter p, simOrder a x := by
          intro x hx
          rcases List.mem_cons.mp (List.mem_of_mem_filter hx) with rfl | hx'
          · exact hab
          · exact le_trans (hb x hx') hab
        rw [orderedInsert_eq_cons hall]
        simp [List.filter_cons, hp]
      · simp [List.filter_cons, hp]
    · rw [if_neg hab, List.filter_cons, ih ht, List.filter_cons]
      by_cases hp : p a <;> by_cases hpb : p b <;>
        simp [hp, hpb, List.orderedInsert, hab]

/-- Filtering commutes with the stable sort. -/
theorem filter_insertionSort (p : MatchResult → Bool) :
    ∀ l : List MatchResult,
      (l.insertionSort simOrder).filter p =
        (l.filter p).insertionSort simOrder := by
  intro l
  induction l with
  | nil => rfl
  | cons a t ih =>
    simp only [List.insertionSort]
    rw [filter_orderedInsert p a _ (List.sorted_insertionSort simOrder t)]
    by_cases hp : p a
    · rw [if_pos hp, ih, List.filter_cons, hp]
      simp [List.insertionSort]
    · simp only [Bool.not_eq_true] at hp
      rw [if_neg (by simp [hp]), ih, List.filter_cons, hp]
      simp

/-- On a descending-sorted list, the records clearing a threshold form a
leading segment. -/
theorem filter_headPart_of_sorted (t2 : ℚ) :
    ∀ l : List MatchResult, l.Pairwise simOrder →
      headPart (l.filter (fun r => decide (t2 ≤ r.similarity))) l := by
  intro l
  induction l with
  | nil => intro _; exact ⟨[], rfl⟩
  | cons a t ih =>
    intro hsort
    have hb : ∀ x ∈ t, simOrder a x := fun x hx =>
      List.rel_of_pairwise_cons hsort hx
    have ht : t.Pairwise simOrder := List.Pairwise.of_cons hsort
    by_cases ha : t2 ≤ a.similarity
    · rw [List.filter_cons, if_pos (by simpa using ha)]
      rcases ih ht with ⟨s, hs⟩
      exact ⟨s, by rw [List.cons_append, ← hs]⟩
    · rw [List.filter_cons, if_neg (by simpa using ha)]
      have : t.filter (fun r => decide (t2 ≤ r.similarity)) = [] := by
        refine List.filter_eq_nil_iff.mpr ?_
        intro x hx
        simp only [decide_eq_true_eq]
        intro hx2
        exact ha (le_trans hx2 (hb x hx))
      rw [this]
      exact ⟨a :: t, rfl⟩

theorem dedupLoop_headPart (limit : Nat) :
    ∀ (l₁ rest : List MatchResult) (seen : List Nat) (count : Nat),
      headPart (dedupLoop limit seen count l₁)
        (dedupLoop limit seen count (l₁ ++ rest)) := by
  intro l₁
  induction l₁ with
  | nil => intro rest seen count; exact ⟨dedupLoop limit seen count rest, rfl⟩
  | cons r t ih =>
    intro rest seen count
    simp only [List.cons_append, dedupLoop]
    by_cases h0 : r.item_id ∈ seen
    · rw [if_pos h0, if_pos h0]
      exact ih rest seen count
    · rw [if_neg h0, if_neg h0]
      by_cases h1 : limit ≤ count + 1
      · rw [if_pos h1, if_pos h1]
        exact ⟨[], rfl⟩
      · rw [if_neg h1, if_neg h1]
        rcases ih rest (r.item_id :: seen) (count + 1) with ⟨s, hs⟩
        exact ⟨s, by rw [List.cons_append, ← hs]; rfl⟩

theorem resolveItems_headPart (items : List Nat) :
    ∀ l₁ rest : List MatchResult,
      headPart (resolveItems items l₁) (resolveItems items (l₁ ++ rest)) := by
  intro l₁
  induction l₁ with
  | nil => intro rest; exact ⟨resolveItems items rest, rfl⟩
  | cons m t ih =>
    intro rest
    simp only [List.cons_append, resolveItems]
    by_cases hm : m.item_id ∈ items
    · rw [if_pos hm, if_pos hm]
      rcases ih rest with ⟨s, hs⟩
      exact ⟨s, by rw [List.cons_append, ← hs]; rfl⟩
    · rw [if_neg hm, if_neg hm]
      exact ih rest

/-- C5: for a fixed corpus, query, limit and catalog, raising the threshold
never increases the number of returned matches. -/
theorem claim_C5_threshold_monotone (conf : ℚ → ℚ) {t1 t2 : ℚ} (limit : Nat)
    (items : List Nat) (corpus : List EmbRecord) (q : List ℚ) (h : t1 ≤ t2) :
    (identifyMatches conf t2 limit items corpus q).length ≤
      (identifyMatches conf t1 limit items corpus q).length := by
  have h2 : sortResults (mkResults conf t2 corpus q) =
      (sortResults (mkResults conf t1 corpus q)).filter
        (fun r => decide (t2 ≤ r.similarity)) := by
    rw [mkResults_filter_of_le conf h corpus q, sortResults, sortResults,
      filter_insertionSort]
  have h3 : headPart (sortResults (mkResults conf t2 corpus q))
      (sortResults (mkResults conf t1 corpus q)) := by
    rw [h2]
    exact filter_headPart_of_sorted t2 _
      (List.sorted_insertionSort simOrder (mkResults conf t1 corpus q))
  rcases h3 with ⟨rest, hrest⟩
  have h4 : headPart (dedupResults limit (sortResults (mkResults conf t2 corpus q)))
      (dedupResults limit (sortResults (mkResults conf t1 corpus q))) := by
    rw [hrest]
    exact dedupLoop_headPart limit _ rest [] 0
  rcases h4 with ⟨rest2, hrest2⟩
  have h5 : headPart (identifyMatches conf t2 limit items corpus q)
      (identifyMatches conf t1 limit items corpus q) := by
    unfold identifyMatches
    rw [hrest2]
    exact resolveItems_headPart items _ rest2
  exact headPart_length_le h5

theorem claim_C5_witness :
    (0 : ℚ) ≤ 1 ∧
      (identifyMatches (fun _ => 0) 1 3 [1, 2]
          [⟨1, "a", [1/2]⟩, ⟨2, "b", [1]⟩] [1]).length ≤
        (identifyMatches (fun _ => 0) 0 3 [1, 2]
          [⟨1, "a", [1/2]⟩, ⟨2, "b", [1]⟩] [1]).length :=
  ⟨by norm_num,
    claim_C5_threshold_monotone (fun _ => 0) 3 [1, 2]
      [⟨1, "a", [1/2]⟩, ⟨2, "b", [1]⟩] [1] (by norm_num)⟩

/-! ### The confidence curve (claim C1), over the reals -/

noncomputable section

/-- Python `round(x, 1)`: scale by ten, round to an integer, scale back. -/
def round1 (x : ℝ) : ℝ := ((round (x * 10) : ℤ) : ℝ) / 10

/-- `MATCH_THRESHOLD` as a real number (identify.py line 20). -/
def matchThreshold : ℝ := 0.25

/-- `range_span = 1.0 - MATCH_THRESHOLD` (identify.py line 114). -/
def range_span : ℝ := 1.0 - matchThreshold

/-- `adjusted_sim = (sim_val - MATCH_THRESHOLD) / range_span`
(identify.py line 115). -/
def adjusted_sim (s : ℝ) : ℝ := (s - matchThreshold) / range_span

/-- identify.py lines 116 and 121: `round(adjusted_sim ** 0.5 * 100, 1)`,
then `min(confidence, 99.9)`. -/
def code_confidence (s : ℝ) : ℝ :=
  min (round1 (Real.sqrt (adjusted_sim s) * 100)) 99.9

/-- The formula as the spec words it: `min(99.9, (adjusted ^ 0.5) × 100)`,
rounded to one decimal place. -/
def spec_confidence (s : ℝ) : ℝ :=
  round1 (min 99.9 (Real.sqrt (adjusted_sim s) * 100))

end

theorem round1_mono {x y : ℝ} (h : x ≤ y) : round1 x ≤ round1 y := by
  unfold round1
  have : round (x * 10) ≤ round (y * 10) := by
    rw [round_eq, round_eq]
    exact Int.floor_mono (by linarith)
  have hc : ((round (x * 10) : ℤ) : ℝ) ≤ ((round (y * 10) : ℤ) : ℝ) :=
    Int.cast_le.mpr this
  linarith

theorem round1_999 : round1 99.9 = 99.9 := by
  unfold round1
  rw [show (99.9 : ℝ) * 10 = ((999 : ℤ) : ℝ) by norm_num, round_intCast]
  norm_num

theorem round1_100 : round1 100 = 100 := by
  unfold round1
  rw [show (100 : ℝ) * 10 = ((1000 : ℤ) : ℝ) by norm_num, round_intCast]
  norm_num

theorem round1_zero : round1 0 = 0 := by
  unfold round1
  rw [show (0 : ℝ) * 10 = ((0 : ℤ) : ℝ) by norm_num, round_intCast]
  norm_num

/-- C1: the reported confidence is `min(99.9, sqrt((s − t)/(1 − t))·100)`
rounded to one decimal place (capping before or after rounding is the same);
at `s = t` it is exactly 0.0 and at `s = 1.0` exactly 99.9, never 100.0. -/
theorem claim_C1_confidence_formula :
    (∀ s : ℝ, code_confidence s = spec_confidence s) ∧
      code_confidence matchThreshold = 0 ∧ code_confidence 1 = 99.9 := by
  refine ⟨?_, ?_, ?_⟩
  · intro s
    unfold code_confidence spec_confidence
    rcases le_total (Real.sqrt (adjusted_sim s) * 100) 99.9 with h | h
    · rw [min_eq_left (le_of_le_of_eq (round1_mono h) round1_999),
        min_eq_right h]
    · rw [min_eq_right (round1_999 ▸ round1_mono h), min_eq_left h]
      exact round1_999.symm
  · unfold code_confidence adjusted_sim
    rw [sub_self, zero_div, Real.sqrt_zero, zero_mul, round1_zero]
    rw [min_eq_left (by norm_num)]
  · unfold code_confidence adjusted_sim range_span matchThreshold
    rw [show ((1 : ℝ) - 0.25) / (1.0 - 0.25) = 1 by norm_num, Real.sqrt_one,
      one_mul, round1_100]
    rw [min_eq_right (by norm_num)]

/-! ### L2 normalisation (claims C6, C8), over the reals -/

noncomputable section

/-- Sum of squares of a vector's entries. -/
def sumSq (v : List ℝ) : ℝ := (v.map (fun x => x ^ 2)).sum

/-- `np.linalg.norm(embedding)`: the Euclidean norm. -/
def l2norm (v : List ℝ) : ℝ := Real.sqrt (sumSq v)

/-- feature_extractor.py lines 288–290: divide by the norm only when the norm
is positive, otherwise leave the vector unchanged. -/
def l2normalize (v : List ℝ) : List ℝ :=
  if 0 < l2norm v then v.map (fun x => x / l2norm v) else v

end

theorem sumSq_nonneg (v : List ℝ) : 0 ≤ sumSq v := by
  refine List.sum_nonneg ?_
  intro x hx
  rcases List.mem_map.mp hx with ⟨y, _, rfl⟩
  positivity

theorem sumSq_eq_zero_iff (v : List ℝ) : sumSq v = 0 ↔ ∀ x ∈ v, x = 0 := by
  induction v with
  | nil => simp [sumSq]
  | cons a t ih =>
    have h1 : (0 : ℝ) ≤ a ^ 2 := by positivity
    have h2 : (0 : ℝ) ≤ sumSq t := sumSq_nonneg t
    have hs : sumSq (a :: t) = a ^ 2 + sumSq t := by simp [sumSq]
    rw [hs]
    constructor
    · intro h
      have ha : a ^ 2 = 0 := le_antisymm (by linarith) h1
      have ht : sumSq t = 0 := by linarith
      intro x hx
      rcases List.mem_cons.mp hx with rfl | hx
      · exact (pow_eq_zero_iff two_ne_zero).mp ha
      · exact ih.mp ht x hx
    · intro h
      have ha : a = 0 := h a (List.mem_cons_self _ _)
      have ht : sumSq t = 0 := ih.mpr fun x hx => h x (List.mem_cons_of_mem _ hx)
      rw [ha, ht]
      norm_num

theorem l2norm_nonneg (v : List ℝ) : 0 ≤ l2norm v := Real.sqrt_nonneg _

theorem sumSq_map_div (v : List ℝ) (c : ℝ) :
    sumSq (v.map (fun x => x / c)) = sumSq v / c ^ 2 := by
  induction v with
  | nil => simp [sumSq]
  | cons a t ih =>
    simp only [List.map_cons, sumSq, List.sum_cons] at ih ⊢
    rw [ih, div_pow, add_div]

theorem l2norm_map_div (v : List ℝ) {c : ℝ} (hc : 0 < c) :
    l2norm (v.map (fun x => x / c)) = l2norm v / c := by
  unfold l2norm
  rw [sumSq_map_div, Real.sqrt_div (sumSq_nonneg v),
    Real.sqrt_sq hc.le]

theorem l2norm_l2normalize {v : List ℝ} (hv : 0 < l2norm v) :
    l2norm (l2normalize v) = 1 := by
  rw [l2normalize, if_pos hv, l2norm_map_div v hv, div_self (ne_of_gt hv)]

theorem l2normalize_idem {v : List ℝ} (hv : 0 < l2norm v) :
    l2normalize (l2normalize v) = l2normalize v := by
  have h1 : l2norm (l2normalize v) = 1 := l2norm_l2normalize hv
  rw [l2normalize, h1]
  rw [if_pos one_pos]
  simp

theorem l2norm_pos_of_nonzero {v : List ℝ} (hv : ∃ x ∈ v, x ≠ 0) :
    0 < l2norm v := by
  refine Real.sqrt_pos.mpr (lt_of_le_of_ne (sumSq_nonneg v) ?_)
  intro h
  rcases hv with ⟨x, hx, hxne⟩
  exact hxne ((sumSq_eq_zero_iff v).mp h.symm x hx)

/-- C6: for a vector with a non-zero entry, normalising twice equals
normalising once and the normalised vector has Euclidean norm exactly 1;
an all-zero vector is returned unchanged (no division happens). -/
theorem claim_C6_l2normalize_idempotent (v : List ℝ) :
    ((∃ x ∈ v, x ≠ 0) →
        l2normalize (l2normalize v) = l2normalize v ∧
          l2norm (l2normalize v) = 1) ∧
      ((∀ x ∈ v, x = 0) → l2normalize v = v) := by
  constructor
  · intro hv
    have hpos := l2norm_pos_of_nonzero hv
    exact ⟨l2normalize_idem hpos, l2norm_l2normalize hpos⟩
  · intro hv
    have h0 : sumSq v = 0 := (sumSq_eq_zero_iff v).mpr hv
    rw [l2normalize, l2norm, h0, Real.sqrt_zero]
    simp

theorem claim_C6_witness :
    l2normalize (l2normalize [(3 : ℝ), 4]) = l2normalize [(3 : ℝ), 4] ∧
      l2norm (l2normalize [(3 : ℝ), 4]) = 1 :=
  (claim_C6_l2normalize_idempotent [3, 4]).1 ⟨3, by norm_num, by norm_num⟩

/-! ### Text feature extraction (claim C8) -/

inductive ExtractError where
  | unsupportedOperation
deriving DecidableEq

/-- An embedding backend as seen by the text path: whether it has a text
encoder, and the raw text-encoding function. -/
structure TextBackend where
  hasTextEncoder : Bool
  encodeText : String → List ℝ

/-- Modelled from the spec: `extract_text_features` is imported and called by
identify.py but its definition is not among the backend sources here. Per
§4.2 it feeds the text through the backend's text-encoding path,
L2-normalises identically to image features (step 8), and fails with
`UnsupportedOperation` when the active backend has no text encoder. -/
noncomputable def extract_text_features (b : TextBackend) (text : String) :
    Except ExtractError (List ℝ) :=
  if b.hasTextEncoder then .ok (l2normalize (b.encodeText text))
  else .error .unsupportedOperation

/-- C8: with a text encoder, the result is the L2-normalised encoder output
(unit norm whenever the encoder output is not all-zero); without one, the
operation fails with `UnsupportedOperation`. -/
theorem claim_C8_text_features (b : TextBackend) (text : String) :
    (b.hasTextEncoder = true →
        extract_text_features b text = .ok (l2normalize (b.encodeText text)) ∧
          ((∃ x ∈ b.encodeText text, x ≠ 0) →
            l2norm (l2normalize (b.encodeText text)) = 1)) ∧
      (b.hasTextEncoder = false →
        extract_text_features b text = .error .unsupportedOperation) := by
  constructor
  · intro h
    refine ⟨by rw [extract_text_features, if_pos (by rw [h])], ?_⟩
    intro hv
    exact l2norm_l2normalize (l2norm_pos_of_nonzero hv)
  · intro h
    rw [extract_text_features, if_neg (by rw [h]; exact Bool.false_ne_true)]

theorem claim_C8_witness :
    extract_text_features ⟨true, fun _ => [(3 : ℝ), 4]⟩ "red shirt" =
        .ok (l2normalize [(3 : ℝ), 4]) ∧
      l2norm (l2normalize [(3 : ℝ), 4]) = 1 ∧
      extract_text_features ⟨false, fun _ => [(3 : ℝ), 4]⟩ "red shirt" =
        .error .unsupportedOperation :=
  ⟨((claim_C8_text_features ⟨true, fun _ => [3, 4]⟩ "red shirt").1 rfl).1,
    ((claim_C8_text_features ⟨true, fun _ => [3, 4]⟩ "red shirt").1 rfl).2
      ⟨3, by norm_num, by norm_num⟩,
    (claim_C8_text_features ⟨false, fun _ => [3, 4]⟩ "red shirt").2 rfl⟩

/-! ### Enrollment atomicity (claim C4) -/

/-- The persistence-relevant state seen by `enroll_item`: existing catalog
item ids, rows of the `item_embeddings` table, and the stored image files. -/
structure EnrollState where
  items : List Nat
  embeddings : List (Nat × String × List ℚ)
  storedImages : List String
deriving DecidableEq

inductive EnrollError where
  | notFound
  | notAnImage
  | extractionFailed
deriving DecidableEq

/-- `enroll_item` (identify.py lines 154–281) restricted to its persistence
effects, in source order: item lookup (404), content-type check (400),
feature extraction on the buffered bytes (500 on failure, before anything is
written), image upload, embedding row insert. The optional LLM auto-tag step
only touches item metadata, never the embedding rows or the image store, and
is elided; `extraction` stands for the outcome of `extract_features`. -/
def enroll_item (st : EnrollState) (item_id : Nat) (isImage : Bool)
    (extraction : Except String (List ℚ)) (newUrl : String) :
    EnrollState × Except EnrollError Nat :=
  if item_id ∉ st.items then
    (st, .error .notFound)
  else if isImage = false then
    (st, .error .notAnImage)
  else
    match extraction with
    | .error _ => (st, .error .extractionFailed)
    | .ok vec =>
      let st1 : EnrollState :=
        { st with storedImages := st.storedImages ++ [newUrl] }
      let st2 : EnrollState :=
        { st1 with embeddings := st1.embeddings ++ [(item_id, newUrl, vec)] }
      (st2, .ok st2.embeddings.length)

/-- C4: when feature extraction fails, enrollment returns an error and the
state is exactly the input state: no embedding row is added, no image is
stored, and hence no row can reference a stored image. -/
theorem claim_C4_enroll_atomic_on_extraction_failure (st : EnrollState)
    (item_id : Nat) (isImage : Bool) (msg : String) (newUrl : String) :
    (enroll_item st item_id isImage (.error msg) newUrl).1 = st ∧
      ∃ e, (enroll_item st item_id isImage (.error msg) newUrl).2 = .error e := by
  unfold enroll_item
  by_cases h1 : item_id ∉ st.items
  · rw [if_pos h1]
    exact ⟨rfl, .notFound, rfl⟩
  · rw [if_neg h1]
    by_cases h2 : isImage = false
    · rw [if_pos h2]
      exact ⟨rfl, .notAnImage, rfl⟩
    · rw [if_neg h2]
      exact ⟨rfl, .extractionFailed, rfl⟩

/-! ### Model management (claims C7, C9) -/

/-- The state of the models directory: the active model filename
(`_active_model`) and the installed artifact filenames. -/
structure ModelState where
  active : String
  installed : List String
deriving DecidableEq

inductive ModelError where
  | invalidOperation
  | notFound
  | validationError
  | downloadFailed
deriving DecidableEq

/-- `delete_model` (feature_extractor.py lines 167–176): refuse to delete the
active model (`ValueError`), unlink an installed file, otherwise
`FileNotFoundError`. -/
def delete_model (st : ModelState) (filename : String) :
    ModelState × Except ModelError Unit :=
  if filename = st.active then
    (st, .error .invalidOperation)
  else if filename ∈ st.installed then
    ({ st with installed := st.installed.erase filename }, .ok ())
  else
    (st, .error .notFound)

/-- C7: deleting the active model fails with `InvalidOperation` and removes
nothing; deleting a non-active, non-installed name fails with `NotFound`. -/
theorem claim_C7_delete_model_guards (st : ModelState) (filename : String) :
    (filename = st.active →
        delete_model st filename = (st, .error .invalidOperation)) ∧
      (filename ≠ st.active → filename ∉ st.installed →
        delete_model st filename = (st, .error .notFound)) := by
  constructor
  · intro h
    rw [delete_model, if_pos h]
  · intro h1 h2
    rw [delete_model, if_neg h1, if_neg h2]

theorem claim_C7_witness :
    delete_model ⟨"a.onnx", ["a.onnx", "b.onnx"]⟩ "a.onnx" =
        (⟨"a.onnx", ["a.onnx", "b.onnx"]⟩, .error .invalidOperation) ∧
      delete_model ⟨"a.onnx", ["a.onnx", "b.onnx"]⟩ "c.onnx" =
        (⟨"a.onnx", ["a.onnx", "b.onnx"]⟩, .error .notFound) :=
  ⟨(claim_C7_delete_model_guards ⟨"a.onnx", ["a.onnx", "b.onnx"]⟩ "a.onnx").1 rfl,
    (claim_C7_delete_model_guards ⟨"a.onnx", ["a.onnx", "b.onnx"]⟩ "c.onnx").2
      (by decide) (by decide)⟩

/-- `download_model` (feature_extractor.py lines 135–155): skip when the
target file already exists, otherwise fetch (outcome `fetchOk`); a failed
fetch deletes the partial file and raises, adding nothing. -/
def download_model (st : ModelState) (filename : String) (fetchOk : Bool) :
    ModelState × Except ModelError Unit :=
  if filename ∈ st.installed then
    (st, .ok ())
  else if fetchOk then
    ({ st with installed := st.installed ++ [filename] }, .ok ())
  else
    (st, .error .downloadFailed)

/-- `save_uploaded_model` (feature_extractor.py lines 158–164): write the
bytes under the given name (overwriting an existing file of that name). -/
def save_uploaded_model (st : ModelState) (filename : String) :
    ModelState × Except ModelError Unit :=
  if filename ∈ st.installed then
    (st, .ok ())
  else
    ({ st with installed := st.installed ++ [filename] }, .ok ())

/-- The `.onnx` model-file extension check, on the character data (the
installed set is globbed as `*.onnx` in feature_extractor.py line 111). -/
def endsWithOnnx (filename : String) : Bool :=
  ".onnx".data.isSuffixOf filename.data

/-- Modelled from the spec: the REST router exposing model management
("download by URL, upload raw bytes", §6) is not among the backend sources
here — `download_model` and `save_uploaded_model` have no caller in them —
and per §4.1 that endpoint layer rejects a filename that does not carry the
expected `.onnx` model-file extension with a `ValidationError` before
touching the installed set. -/
def download_model_endpoint (st : ModelState) (filename : String)
    (fetchOk : Bool) : ModelState × Except ModelError Unit :=
  if endsWithOnnx filename = false then
    (st, .error .validationError)
  else
    download_model st filename fetchOk

/-- Modelled from the spec: the upload-bytes endpoint, with the same
extension validation as the download endpoint (§4.1, §6). -/
def upload_model_endpoint (st : ModelState) (filename : String) :
    ModelState × Except ModelError Unit :=
  if endsWithOnnx filename = false then
    (st, .error .validationError)
  else
    save_uploaded_model st filename

/-- C9: a download or upload whose filename lacks the `.onnx` extension
fails with `ValidationError` and leaves the installed set unchanged. -/
theorem claim_C9_extension_validated (st : ModelState) (filename : String)
    (fetchOk : Bool) (h : endsWithOnnx filename = false) :
    download_model_endpoint st filename fetchOk = (st, .error .validationError) ∧
      upload_model_endpoint st filename = (st, .error .validationError) := by
  constructor
  · rw [download_model_endpoint, if_pos h]
  · rw [upload_model_endpoint, if_pos h]

theorem claim_C9_witness :
    endsWithOnnx "model.txt" = false ∧
      download_model_endpoint ⟨"a.onnx", ["a.onnx"]⟩ "model.txt" true =
        (⟨"a.onnx", ["a.onnx"]⟩, .error .validationError) ∧
      upload_model_endpoint ⟨"a.onnx", ["a.onnx"]⟩ "model.txt" =
        (⟨"a.onnx", ["a.onnx"]⟩, .error .validationError) :=
  ⟨by decide,
    (claim_C9_extension_validated ⟨"a.onnx", ["a.onnx"]⟩ "model.txt" true
      (by decide)).1,
    (claim_C9_extension_validated ⟨"a.onnx", ["a.onnx"]⟩ "model.txt" true
      (by decide)).2⟩

end VisualLens
